import Mathlib

/-!
Verification of the `styled_help` proc-macro crate
(`src/crate/styled-help/src/lib.rs`).

The crate transforms doc comments on the named fields of a struct into
`#[arg(help = ..., long_help = ...)]` attributes wrapped in
`::color_print::cstr!`, but only when the doc text contains one of a fixed
set of inline style markers.  This file is a shallow embedding of that
logic: Rust strings are Lean `String`s (lists of characters), a field's
attribute list is an explicit list, and `process_field` / `styled_help`
are translated line by line from the source.
-/

set_option maxRecDepth 100000

namespace StyledHelp

/-- Model of Rust `char::is_whitespace`: membership in the Unicode
White_Space set (U+0009–U+000D, U+0020, U+0085, U+00A0, U+1680,
U+2000–U+200A, U+2028, U+2029, U+202F, U+205F, U+3000). -/
def rustWhitespaceChars : List Char :=
  [' ', '\t', '\n', '\u000B', '\u000C', '\r', '\u0085', '\u00A0',
   '\u1680', '\u2000', '\u2001', '\u2002', '\u2003', '\u2004',
   '\u2005', '\u2006', '\u2007', '\u2008', '\u2009', '\u200A',
   '\u2028', '\u2029', '\u202F', '\u205F', '\u3000']

def isRustWS (c : Char) : Bool := rustWhitespaceChars.contains c

/-- Model of Rust `str::trim`: remove leading and trailing whitespace. -/
def rustTrim (s : String) : String :=
  ⟨((s.data.dropWhile isRustWS).reverse.dropWhile isRustWS).reverse⟩

/-- Model of Rust `str::trim_end`: remove trailing whitespace. -/
def rustTrimEnd (s : String) : String :=
  ⟨(s.data.reverse.dropWhile isRustWS).reverse⟩

/-- Does `pat` occur at the very start of `l`?  (Auxiliary for substring
containment, i.e. Rust `str::starts_with` at the list level.) -/
def leadsWith : List Char → List Char → Bool
  | [], _ => true
  | _ :: _, [] => false
  | p :: ps, c :: cs => p = c && leadsWith ps cs

/-- Does `pat` occur somewhere in the list?  Checks every start position. -/
def containsSubAux (pat : List Char) : List Char → Bool
  | [] => leadsWith pat []
  | c :: rest => leadsWith pat (c :: rest) || containsSubAux pat rest

/-- Model of Rust `str::contains(pat)` for a string pattern. -/
def strContains (s pat : String) : Bool := containsSubAux pat.data s.data

/-- Model of Rust `slice::join("\n")` on a vector of strings
(`doc_lines.join("\n")` in the source). -/
def joinNL : List String → String
  | [] => ""
  | [s] => s
  | s :: rest => s ++ "\n" ++ joinNL rest

/-- Model of Rust `str::split("\n\n")` at the character-list level:
non-overlapping, leftmost-first matches of the two-newline separator;
always returns at least one (possibly empty) piece. -/
def splitNN : List Char → List (List Char)
  | '\n' :: '\n' :: rest => [] :: splitNN rest
  | c :: rest =>
      match splitNN rest with
      | [] => [[c]]
      | p :: ps => (c :: p) :: ps
  | [] => [[]]

/-- The source's `combined_doc.split("\n\n").collect()`. -/
def split_paragraphs (s : String) : List String := (splitNN s.data).map String.mk

/-- Rust `str::ends_with('.')`: the last character is a period. -/
def endsWithDot (s : String) : Bool :=
  match s.data.getLast? with
  | some c => c = '.'
  | none => false

/-- The source's period strip `trimmed[..trimmed.len() - 1]`, taken only
when `trimmed.ends_with('.')`.  Since `'.'` is a one-byte character, the
byte slice removes exactly the final character. -/
def stripDot (s : String) : String :=
  if endsWithDot s then String.mk s.data.dropLast else s

/-- Model of Rust `str::len`: the UTF-8 byte length. -/
def byteLen (s : String) : Nat := (s.data.map Char.utf8Size).sum

/-- The fixed, case-sensitive marker set checked by `process_field`
(lines 79–90 of the source), in source order. -/
def styleMarkers : List String :=
  ["<c>", "</>", "<s>", "<u>", "<k>", "<r>", "<g>", "<b>", "<y>", "<m>",
   "<cyan>", "<white>"]

/-- Does one doc line contain any style marker?  (The `doc_content.contains(..)
|| ...` chain of the source.) -/
def hasMarker (s : String) : Bool := styleMarkers.any (fun m => strContains s m)

/-- One attribute of a field, as far as `process_field` can observe it:
`docNV s` is `#[doc = "s"]` (a `Meta::NameValue` with a string literal,
i.e. a doc comment line); `docOther` is any other attribute whose path is
`doc`; `argList t` is `#[arg(...)]` (a `Meta::List`) whose token stream
stringifies to `t`; `other t` is any attribute that is neither a `doc`
attribute nor an `arg` `Meta::List`. -/
inductive Attr where
  | docNV (content : String)
  | docOther
  | argList (tokens : String)
  | other (tokens : String)
deriving DecidableEq

/-- A named struct field: its identifier, its type (opaque here — the
transformation never touches it) and its attribute list in source order. -/
structure Field where
  name : String
  ty : String
  attrs : List Attr
deriving DecidableEq

/-- Attributes removed by `field.attrs.retain(|attr| !attr.path().is_ident("doc"))`:
exactly those whose path is `doc`. -/
def isDocAttr : Attr → Bool
  | .docNV _ => true
  | .docOther => true
  | _ => false

/-- Lines 50–52 of the source for one attribute: a `Meta::List` `arg`
attribute whose token string contains `"help ="` or `"long_help ="`. -/
def attrDeclaresHelp : Attr → Bool
  | .argList t => strContains t "help =" || strContains t "long_help ="
  | _ => false

/-- Lines 45–58 of the source: some `#[arg(...)]` attribute's token string
contains `"help ="` or `"long_help ="`. -/
def has_existing_help (f : Field) : Bool := f.attrs.any attrDeclaresHelp

/-- The trimmed doc text contributed by one attribute
(`doc_content.trim().to_string()` for a doc comment line, nothing for any
other attribute). -/
def docLineOf : Attr → Option String
  | .docNV s => some (rustTrim s)
  | _ => none

/-- Lines 66–96 of the source, first component: the trimmed contents of the
doc-comment attributes, in source order. -/
def doc_lines (f : Field) : List String := f.attrs.filterMap docLineOf

/-- The raw doc text contributed by one attribute, before the trim. -/
def docContentOf : Attr → Option String
  | .docNV s => some s
  | _ => none

/-- The raw (untrimmed) doc-comment contents, in source order; marker
detection runs on these (`doc_content.contains(..)` before the trim). -/
def docContents (f : Field) : List String := f.attrs.filterMap docContentOf

/-- Lines 66–96 of the source, second component: some doc line contains a
style marker. -/
def has_style_markers (f : Field) : Bool := (docContents f).any hasMarker

/-- Lines 113–125 of the source: first `"\n\n"`-paragraph, right-trimmed,
with a trailing period stripped (`paragraphs.first()` with the dead
`String::new()` fallback kept for fidelity). -/
def short_help_of (combined : String) : String :=
  match split_paragraphs combined with
  | [] => ""
  | firstPara :: _ => stripDot (rustTrimEnd firstPara)

/-- Escapes used when a Rust string literal token is rendered back to
text (quote, backslash and control characters escaped; all other
characters kept verbatim). -/
def quoteChar (c : Char) : List Char :=
  if c = '"' ∨ c = '\\' then ['\\', c]
  else if c = '\n' then ['\\', 'n']
  else if c = '\t' then ['\\', 't']
  else if c = '\r' then ['\\', 'r']
  else [c]

/-- Rendering of a Rust string literal token: the contents escaped by
`quoteChar`, surrounded by double quotes. -/
def quoteStr (s : String) : String :=
  ⟨'"' :: s.data.foldr (fun c acc => quoteChar c ++ acc) ['"']⟩

/-- Token string of the emitted attribute
`#[arg(help = ::color_print::cstr!(#short_help), long_help = ::color_print::cstr!(#long_help))]`
(line 130–132 of the source), with `proc_macro2`-style spacing between
tokens, and the interpolated string literals rendered with their quotes. -/
def emittedTokens (shortHelp longHelp : String) : String :=
  "help = :: color_print :: cstr ! (" ++ quoteStr shortHelp
    ++ ") , long_help = :: color_print :: cstr ! (" ++ quoteStr longHelp ++ ")"

/-- The attribute pushed by `field.attrs.push(help_attr)`. -/
def helpAttr (shortHelp longHelp : String) : Attr :=
  .argList (emittedTokens shortHelp longHelp)

/-- Translation of `process_field` (lines 43–134 of the source).  The Rust
function mutates `field` in place; here it returns the updated field.
Control flow: return unchanged if an existing `help =`/`long_help =` is
found (line 61–63); return unchanged if there are no doc lines or no style
markers (line 98–101); otherwise drop the doc attributes and append the
generated help attribute (lines 103–133). -/
def process_field (f : Field) : Field :=
  if has_existing_help f then f
  else if (doc_lines f).isEmpty || !has_style_markers f then f
  else
    { f with
      attrs := f.attrs.filter (fun a => !isDocAttr a)
        ++ [helpAttr (short_help_of (joinNL (doc_lines f))) (joinNL (doc_lines f))] }

/-- The shapes `syn::Fields` can take: named fields, unnamed (tuple-like,
only their count matters here) or a unit struct. -/
inductive FieldsShape where
  | named (fs : List Field)
  | unnamed (n : Nat)
  | unit
deriving DecidableEq

/-- The shapes `syn::Data` can take. -/
inductive DataShape where
  | structData (fields : FieldsShape)
  | enumData
  | unionData
deriving DecidableEq

/-- The parsed `DeriveInput`: its identifier and its data shape.  (Other
components — generics, visibility, outer attributes — are re-emitted
verbatim by the macro and are omitted.) -/
structure DeriveInputData where
  name : String
  data : DataShape
deriving DecidableEq

/-- Translation of the `styled_help` entry point (lines 29–41 of the
source), over an already-parsed `DeriveInput`: only a struct with named
fields is modified (every field processed); every other shape is re-emitted
unchanged.  `parse_macro_input!` aborts compilation only when the token
stream fails to parse as a `DeriveInput`; a well-formed tuple struct, enum
or union parses successfully and reaches this function. -/
def styled_help (input : DeriveInputData) : DeriveInputData :=
  match input with
  | ⟨name, .structData (.named fs)⟩ =>
      ⟨name, .structData (.named (fs.map process_field))⟩
  | inp => inp

/-! ### Concrete example fields and inputs used by witnesses and
counterexamples. -/

/-- A field carrying the single doc comment `/// Sort messages alphabetically.`
and no other attribute (test case 7 of the spec). -/
def plainField : Field := ⟨"sort", "bool", [.docNV " Sort messages alphabetically."]⟩

/-- A field carrying the doc comment from the macro's own example, which
contains the `<c>`/`</>` markers, plus one unrelated attribute. -/
def styledField : Field :=
  ⟨"sort", "bool",
   [.docNV " Sort messages using <c>--sync-interval-ms</> option", .other "long"]⟩

/-- A field with a `help_heading = "X"` argument attribute and a styled doc
comment (test case 2 of the spec). -/
def headingField : Field :=
  ⟨"sort", "bool",
   [.argList "help_heading = \"X\"",
    .docNV " Sort messages using <c>--sync-interval-ms</> option"]⟩

/-- A field whose doc comment has two paragraphs separated by a blank doc
line (test case 5 of the spec, with a marker added so the transformer
acts). -/
def paraField : Field :=
  ⟨"sync", "bool",
   [.docNV " Enable <c>sync</>.", .docNV "", .docNV " Further detail here."]⟩

/-- A field whose doc line contains an unclosed `<c>` marker (test case 9
of the spec). -/
def unbalancedField : Field := ⟨"msg", "bool", [.docNV "<c>text"]⟩

/-- A field that already declares `help =` inside its `#[arg(...)]`
attribute. -/
def explicitHelpField : Field :=
  ⟨"quiet", "bool", [.docNV " Be quiet", .argList "long , help = \"Custom.\""]⟩

/-- A field with a styled doc comment, a non-name-value doc attribute and
an unrelated attribute, used to observe which attributes survive. -/
def consumeField : Field :=
  ⟨"verbose", "bool", [.other "short", .docNV " Show <g>verbose</> output.", .docOther]⟩

/-- A tuple-like struct input: `struct Pair(u32, u32);`. -/
def tupleInput : DeriveInputData := ⟨"Pair", .structData (.unnamed 2)⟩

/-- An enum input. -/
def enumInput : DeriveInputData := ⟨"Mode", .enumData⟩

/-! ### Helper lemmas -/

theorem leadsWith_append (p a b : List Char) (h : leadsWith p a = true) :
    leadsWith p (a ++ b) = true := by
  induction p generalizing a with
  | nil => simp [leadsWith]
  | cons x xs ih =>
    cases a with
    | nil => simp [leadsWith] at h
    | cons c cs =>
      simp only [leadsWith, Bool.and_eq_true, decide_eq_true_eq] at h
      simp only [List.cons_append, leadsWith, Bool.and_eq_true, decide_eq_true_eq]
      exact ⟨h.1, ih cs h.2⟩

theorem containsSubAux_of_leadsWith (p l : List Char) (h : leadsWith p l = true) :
    containsSubAux p l = true := by
  cases l with
  | nil => simpa [containsSubAux] using h
  | cons c cs => simp [containsSubAux, h]

theorem emittedTokens_declares_help (s l : String) :
    strContains (emittedTokens s l) "help =" = true := by
  unfold strContains emittedTokens
  simp only [String.data_append]
  apply containsSubAux_of_leadsWith
  apply leadsWith_append
  apply leadsWith_append
  apply leadsWith_append
  apply leadsWith_append
  decide

theorem attrDeclaresHelp_helpAttr (s l : String) :
    attrDeclaresHelp (helpAttr s l) = true := by
  simp [attrDeclaresHelp, helpAttr, emittedTokens_declares_help]

theorem has_existing_help_of_mem (f : Field) (a : Attr) (ha : a ∈ f.attrs)
    (h : attrDeclaresHelp a = true) : has_existing_help f = true := by
  unfold has_existing_help
  rw [List.any_eq_true]
  exact ⟨a, ha, h⟩

theorem process_field_noop (f : Field)
    (h : has_existing_help f = true ∨ (doc_lines f).isEmpty = true
      ∨ has_style_markers f = false) :
    process_field f = f := by
  rcases h with h | h | h <;> simp [process_field, h]

theorem process_field_emit (f : Field)
    (h₁ : has_existing_help f = false) (h₂ : (doc_lines f).isEmpty = false)
    (h₃ : has_style_markers f = true) :
    process_field f
      = { f with attrs := f.attrs.filter (fun a => !isDocAttr a)
          ++ [helpAttr (short_help_of (joinNL (doc_lines f))) (joinNL (doc_lines f))] } := by
  simp [process_field, h₁, h₂, h₃]

theorem has_existing_help_emit (f : Field) (s l : String) :
    has_existing_help
      { f with attrs := f.attrs.filter (fun a => !isDocAttr a) ++ [helpAttr s l] } = true := by
  apply has_existing_help_of_mem _ (helpAttr s l)
  · simp
  · exact attrDeclaresHelp_helpAttr s l

theorem splitNN_no_boundary (l : List Char)
    (h : containsSubAux ['\n', '\n'] l = false) : splitNN l = [l] := by
  induction l using splitNN.induct with
  | case1 rest ih =>
    exfalso
    simp [containsSubAux, leadsWith] at h
  | case2 c rest hne hnil ih =>
    exfalso
    have h' : containsSubAux ['\n', '\n'] rest = false := by
      simp only [containsSubAux, Bool.or_eq_false_iff] at h
      exact h.2
    rw [ih h'] at hnil
    simp at hnil
  | case3 c rest hne p ps hps ih =>
    have h' : containsSubAux ['\n', '\n'] rest = false := by
      simp only [containsSubAux, Bool.or_eq_false_iff] at h
      exact h.2
    rw [splitNN.eq_2 c rest hne, ih h']
  | case4 => rfl

theorem short_help_of_eq (c firstPara : String) (ps : List String)
    (h : split_paragraphs c = firstPara :: ps) :
    short_help_of c = stripDot (rustTrimEnd firstPara) := by
  unfold short_help_of
  rw [h]

theorem getLast?_decomp {α : Type} (l : List α) (a : α) (h : l.getLast? = some a) :
    l = l.dropLast ++ [a] := by
  induction l with
  | nil => simp at h
  | cons x t ih =>
    cases t with
    | nil =>
      simp [List.getLast?] at h
      simp [h]
    | cons y u =>
      rw [List.getLast?_cons_cons] at h
      have e := ih h
      calc x :: y :: u = x :: ((y :: u).dropLast ++ [a]) := by rw [← e]
        _ = (x :: y :: u).dropLast ++ [a] := by simp

theorem stripDot_spec (s : String) (h : endsWithDot s = true) :
    stripDot s ++ "." = s ∧ byteLen (stripDot s) + 1 = byteLen s := by
  have hd : s.data.getLast? = some '.' := by
    unfold endsWithDot at h
    cases hl : s.data.getLast? with
    | none => rw [hl] at h; simp at h
    | some c =>
      rw [hl] at h
      simp only at h
      have : c = '.' := of_decide_eq_true h
      rw [this]
  have hdata : s.data = s.data.dropLast ++ ['.'] := getLast?_decomp _ _ hd
  constructor
  · apply String.ext
    show (stripDot s ++ ".").data = s.data
    rw [String.data_append]
    simp only [stripDot, h, if_true]
    show s.data.dropLast ++ ".".data = s.data
    rw [← hdata]
  · simp only [stripDot, h, if_true]
    unfold byteLen
    conv_rhs => rw [hdata]
    simp [List.map_append]
    decide

theorem filterMap_docLineOf_filter (l : List Attr) :
    (l.filter (fun a => !isDocAttr a)).filterMap docLineOf = [] := by
  induction l with
  | nil => rfl
  | cons a t ih =>
    cases a <;>
      simp only [List.filter_cons, isDocAttr, Bool.not_true, Bool.not_false, if_true, if_false,
        List.filterMap_cons, docLineOf, ite_true, ite_false, Bool.false_eq_true,
        Bool.true_eq_false] <;>
      exact ih

/-! ### Claim theorems -/

/-- C1: a new help declaration is emitted if and only if the field's
existing metadata does not already declare help content, the doc-line
sequence is non-empty and (marker-only policy) at least one style marker
is detected; in every other case the field is returned unchanged. -/
theorem help_emitted_iff (f : Field) :
    (has_existing_help f = false ∧ (doc_lines f).isEmpty = false
        ∧ has_style_markers f = true →
      process_field f
        = { f with attrs := f.attrs.filter (fun a => !isDocAttr a)
            ++ [helpAttr (short_help_of (joinNL (doc_lines f))) (joinNL (doc_lines f))] }
      ∧ process_field f ≠ f)
    ∧ (has_existing_help f = true ∨ (doc_lines f).isEmpty = true
        ∨ has_style_markers f = false →
      process_field f = f) := by
  constructor
  · rintro ⟨h₁, h₂, h₃⟩
    have e := process_field_emit f h₁ h₂ h₃
    refine ⟨e, ?_⟩
    intro heq
    have hg : has_existing_help (process_field f) = true := by
      rw [e]; exact has_existing_help_emit f _ _
    rw [heq, h₁] at hg
    exact Bool.false_ne_true hg
  · exact process_field_noop f

/-- C1 witness: on the macro's own styled example field the transformer
emits (the field changes), exercising the positive branch. -/
theorem help_emitted_iff_witness :
    process_field styledField
      = { styledField with attrs := styledField.attrs.filter (fun a => !isDocAttr a)
          ++ [helpAttr (short_help_of (joinNL (doc_lines styledField)))
              (joinNL (doc_lines styledField))] }
    ∧ process_field styledField ≠ styledField :=
  (help_emitted_iff styledField).1 (by decide)

/-- C2 counterexample: for the marker-free doc line
`"Sort messages alphabetically."` on a field with no existing help, the
code emits nothing at all — the field is returned exactly unchanged — so
no plain short/long pair `"Sort messages alphabetically"` /
`"Sort messages alphabetically."` is produced, contrary to the claim. -/
theorem plain_doc_line_yields_nothing :
    has_existing_help plainField = false
    ∧ doc_lines plainField = ["Sort messages alphabetically."]
    ∧ has_style_markers plainField = false
    ∧ process_field plainField = plainField := by
  refine ⟨by decide, by decide, by decide, by decide⟩

/-- C2 amended: for a field whose documentation contains no style marker
the transformer emits nothing and returns the field unchanged (the doc
lines are left for the downstream framework to handle). -/
theorem no_markers_no_action (f : Field) (h : has_style_markers f = false) :
    process_field f = f :=
  process_field_noop f (Or.inr (Or.inr h))

/-- C2 witness: the marker-free example field is returned unchanged. -/
theorem no_markers_no_action_witness : process_field plainField = plainField :=
  no_markers_no_action plainField (by decide)

/-- C3: whenever help is emitted, `long_help` is the trimmed doc lines
joined with single newlines; `short_help` is the first `"\n\n"`-separated
paragraph of that joined text, right-trimmed, with one trailing period
stripped exactly when present; and when the joined text has no `"\n\n"`
boundary the first paragraph is the whole text. -/
theorem emitted_text_shape (f : Field)
    (h₁ : has_existing_help f = false) (h₂ : (doc_lines f).isEmpty = false)
    (h₃ : has_style_markers f = true) :
    process_field f
      = { f with attrs := f.attrs.filter (fun a => !isDocAttr a)
          ++ [helpAttr (short_help_of (joinNL (doc_lines f))) (joinNL (doc_lines f))] }
    ∧ (∀ firstPara ps, split_paragraphs (joinNL (doc_lines f)) = firstPara :: ps →
        short_help_of (joinNL (doc_lines f)) = stripDot (rustTrimEnd firstPara))
    ∧ (strContains (joinNL (doc_lines f)) "\n\n" = false →
        split_paragraphs (joinNL (doc_lines f)) = [joinNL (doc_lines f)]
        ∧ short_help_of (joinNL (doc_lines f))
            = stripDot (rustTrimEnd (joinNL (doc_lines f)))) := by
  refine ⟨process_field_emit f h₁ h₂ h₃, ?_, ?_⟩
  · intro firstPara ps hsplit
    exact short_help_of_eq _ firstPara ps hsplit
  · intro hnb
    have hd : containsSubAux ['\n', '\n'] (joinNL (doc_lines f)).data = false := by
      have e : "\n\n".data = ['\n', '\n'] := by decide
      unfold strContains at hnb
      rw [e] at hnb
      exact hnb
    have hs := splitNN_no_boundary _ hd
    have hsp : split_paragraphs (joinNL (doc_lines f)) = [joinNL (doc_lines f)] := by
      unfold split_paragraphs
      rw [hs]
      rfl
    exact ⟨hsp, short_help_of_eq _ _ _ hsp⟩

/-- C3 witness: the two-paragraph example field, where the emitted pair is
`"Enable <c>sync</>"` / `"Enable <c>sync</>.\n\nFurther detail here."`. -/
theorem emitted_text_shape_witness :
    process_field paraField
      = { paraField with attrs := paraField.attrs.filter (fun a => !isDocAttr a)
          ++ [helpAttr (short_help_of (joinNL (doc_lines paraField)))
              (joinNL (doc_lines paraField))] }
    ∧ short_help_of (joinNL (doc_lines paraField)) = "Enable <c>sync</>"
    ∧ joinNL (doc_lines paraField) = "Enable <c>sync</>.\n\nFurther detail here." :=
  ⟨(emitted_text_shape paraField (by decide) (by decide) (by decide)).1,
   by decide, by decide⟩

/-- C4: a field whose `#[arg(...)]` token blob contains the exact substring
`"help ="` or `"long_help ="` is returned exactly unchanged — doc lines
and all metadata intact. -/
theorem existing_help_short_circuit (f : Field) (t : String)
    (hmem : Attr.argList t ∈ f.attrs)
    (ht : strContains t "help =" = true ∨ strContains t "long_help =" = true) :
    process_field f = f := by
  apply process_field_noop
  left
  apply has_existing_help_of_mem f (Attr.argList t) hmem
  rcases ht with h | h <;> simp [attrDeclaresHelp, h]

/-- C4 witness: a field with `#[arg(long, help = "Custom.")]` is left
unchanged. -/
theorem existing_help_short_circuit_witness :
    process_field explicitHelpField = explicitHelpField :=
  existing_help_short_circuit explicitHelpField "long , help = \"Custom.\""
    (by decide) (Or.inl (by decide))

/-- C5: `help_heading = "X"` contains neither `"help ="` nor
`"long_help ="`, so the existing-help detector does not fire, and a field
carrying it (with an otherwise qualifying styled doc line) is still
transformed. -/
theorem help_heading_no_false_positive :
    strContains "help_heading = \"X\"" "help =" = false
    ∧ strContains "help_heading = \"X\"" "long_help =" = false
    ∧ has_existing_help headingField = false
    ∧ process_field headingField
        = { headingField with attrs := [Attr.argList "help_heading = \"X\"",
            helpAttr "Sort messages using <c>--sync-interval-ms</> option"
              "Sort messages using <c>--sync-interval-ms</> option"] } := by
  refine ⟨by decide, by decide, by decide, by decide⟩

/-- C6: the styled flag is set if and only if some marker from the fixed
set occurs as a substring of some doc line; an unmatched `<c>` with no
closing `</>` still flags the field (no balance validation), and the
emitted strings then wrap the text verbatim in the raw `cstr!` form. -/
theorem style_markers_iff :
    (∀ f : Field, has_style_markers f = true ↔
      ∃ s ∈ docContents f, ∃ m ∈ styleMarkers, strContains s m = true)
    ∧ has_style_markers unbalancedField = true
    ∧ process_field unbalancedField
        = { unbalancedField with attrs := [helpAttr "<c>text" "<c>text"] } := by
  refine ⟨?_, by decide, by decide⟩
  intro f
  simp only [has_style_markers, hasMarker, List.any_eq_true]

/-- C6 witness: the unbalanced-marker field is flagged as styled, via the
iff's right-to-left direction at the concrete marker `<c>`. -/
theorem style_markers_iff_witness : has_style_markers unbalancedField = true :=
  (style_markers_iff.1 unbalancedField).mpr
    ⟨"<c>text", by decide, "<c>", by decide, by decide⟩

/-- C7: when help is emitted, every doc attribute is removed, the remaining
attributes keep their original order, exactly one help declaration is
appended at the end, and no doc line survives in the result. -/
theorem doc_attrs_consumed (f : Field)
    (h₁ : has_existing_help f = false) (h₂ : (doc_lines f).isEmpty = false)
    (h₃ : has_style_markers f = true) :
    (process_field f).attrs
      = f.attrs.filter (fun a => !isDocAttr a)
        ++ [helpAttr (short_help_of (joinNL (doc_lines f))) (joinNL (doc_lines f))]
    ∧ (process_field f).attrs.filter (fun a => isDocAttr a) = []
    ∧ doc_lines (process_field f) = [] := by
  have e := process_field_emit f h₁ h₂ h₃
  refine ⟨by rw [e], ?_, ?_⟩
  · rw [e]
    simp only [List.filter_append, List.filter_filter]
    rw [show (fun a => isDocAttr a && !isDocAttr a) = fun _ => false by
      funext a; exact Bool.and_not_self _]
    simp [helpAttr, isDocAttr]
  · rw [e]
    unfold doc_lines
    simp only [List.filterMap_append, filterMap_docLineOf_filter]
    simp [helpAttr, docLineOf]

/-- C7 witness: on a field with a styled doc line, an unrelated attribute
and a bare doc attribute, the result keeps only the unrelated attribute
plus the new help declaration and retains no doc line. -/
theorem doc_attrs_consumed_witness :
    (process_field consumeField).attrs.filter (fun a => isDocAttr a) = []
    ∧ doc_lines (process_field consumeField) = [] :=
  ⟨(doc_attrs_consumed consumeField (by decide) (by decide) (by decide)).2.1,
   (doc_attrs_consumed consumeField (by decide) (by decide) (by decide)).2.2⟩

/-- C8: the transformer is idempotent: a second application returns its
input unchanged, because an application that acted left a `help =` blob
(short-circuiting the existing-help check) and removed all doc lines,
while an application that did not act returned the field unchanged. -/
theorem process_field_idempotent (f : Field) :
    process_field (process_field f) = process_field f := by
  by_cases h₁ : has_existing_help f = true
  · have e := process_field_noop f (Or.inl h₁); rw [e]; exact e
  · rw [Bool.not_eq_true] at h₁
    by_cases h₂ : (doc_lines f).isEmpty = true
    · have e := process_field_noop f (Or.inr (Or.inl h₂)); rw [e]; exact e
    · rw [Bool.not_eq_true] at h₂
      by_cases h₃ : has_style_markers f = true
      · have e := process_field_emit f h₁ h₂ h₃
        apply process_field_noop
        left
        rw [e]
        exact has_existing_help_emit f _ _
      · rw [Bool.not_eq_true] at h₃
        have e := process_field_noop f (Or.inr (Or.inr h₃)); rw [e]; exact e

/-- C9 counterexample: a tuple-like struct input and an enum input are both
returned exactly unchanged — the macro performs no abort and surfaces no
build-time failure for these shapes (it silently passes them through). -/
theorem unsupported_shape_not_failure :
    styled_help tupleInput = tupleInput ∧ styled_help enumInput = enumInput :=
  ⟨rfl, rfl⟩

/-- C9 amended: given an unsupported shape (tuple-like struct, unit struct,
enum or union) the transformer is a silent no-op, returning the input
unchanged rather than aborting; it still never partially applies — a
named-field struct has every field processed, anything else is untouched. -/
theorem unsupported_shape_passthrough :
    (∀ input : DeriveInputData,
      (∀ fs, input.data ≠ DataShape.structData (FieldsShape.named fs)) →
        styled_help input = input)
    ∧ (∀ name fs,
        styled_help ⟨name, DataShape.structData (FieldsShape.named fs)⟩
          = ⟨name, DataShape.structData (FieldsShape.named (fs.map process_field))⟩) := by
  constructor
  · rintro ⟨name, data⟩ h
    cases data with
    | structData fsh =>
      cases fsh with
      | named fs => exact absurd rfl (h fs)
      | unnamed n => rfl
      | unit => rfl
    | enumData => rfl
    | unionData => rfl
  · intro name fs
    rfl

/-- C9 witness: the enum input is passed through unchanged via the
passthrough theorem. -/
theorem unsupported_shape_passthrough_witness :
    styled_help enumInput = enumInput :=
  unsupported_shape_passthrough.1 enumInput (fun _ h => nomatch h)

/-- C10: whenever the right-trimmed first paragraph ends with a period, the
byte slice `trimmed[..trimmed.len() - 1]` is safe: its byte length is one
less than the paragraph's (so the index is in bounds) and appending the
one-byte `"."` back restores the paragraph exactly (so the cut sits on a
character boundary); the strip never panics. -/
theorem period_strip_safe (p : String)
    (h : endsWithDot (rustTrimEnd p) = true) :
    stripDot (rustTrimEnd p) ++ "." = rustTrimEnd p
    ∧ byteLen (stripDot (rustTrimEnd p)) + 1 = byteLen (rustTrimEnd p)
    ∧ 1 ≤ byteLen (rustTrimEnd p) := by
  obtain ⟨e₁, e₂⟩ := stripDot_spec (rustTrimEnd p) h
  exact ⟨e₁, e₂, by omega⟩

/-- C10 witness: the concrete paragraph `"Enable sync."`. -/
theorem period_strip_safe_witness :
    stripDot (rustTrimEnd "Enable sync.") ++ "." = rustTrimEnd "Enable sync."
    ∧ byteLen (stripDot (rustTrimEnd "Enable sync.")) + 1
        = byteLen (rustTrimEnd "Enable sync.")
    ∧ 1 ≤ byteLen (rustTrimEnd "Enable sync.") :=
  period_strip_safe "Enable sync." (by decide)

end StyledHelp
